import Mathlib

/-!
# A model of `groutine_pool/pool.go`

Shallow embedding of the bounded-concurrency goroutine pool in package
`groutine_pool` (file `pool.go`).  The pool is concurrent code, so it is
embedded as a labelled-free small-step transition system on an explicit
state type `Pool`:

* the buffered channel `tokens` (capacity `concurrent`) is modelled by the
  number of values currently buffered plus a closed flag;
* the unbuffered channel `pending` has no buffer, so only its closed flag
  is state; a successful send is a rendezvous step pairing a blocked
  `Execute` caller with a worker blocked in its `select`;
* every in-flight `Execute` call, worker goroutine running `Pool.loop`,
  and in-flight `Close` call is a thread with a program counter;
* `sync.WaitGroup` is its counter `waitCount`; the cancellable context is
  its `cancelled` flag; `recoverFunc` is abstracted to presence
  (`hasRecover`) plus the list of payloads it has been invoked with;
* ghost fields `nextId`, `execs`, `drops` give each task submitted through
  `Execute` a fresh identity and record which task bodies were started and
  which submissions were lost to a recovered panic on the submission path.

Each constructor of `Step` is one atomic transition of the Go code, with
the source line it embeds noted in its doc comment.
-/

namespace GoPool

/-- A panic payload that can reach `doRecover`: a panic raised by a task
body, the run-time error from calling a nil `func` value, or the run-time
error from a send on a closed channel. -/
inductive Payload where
  | taskPanic (t : Nat) : Payload
  | nilFunctionCall : Payload
  | sendOnClosedChannel : Payload
  deriving DecidableEq, Repr

/-- State of the `time.Timer` owned by one worker.  Durations are kept
abstract: an armed timer may fire at any moment (nondeterministically), so
`armed d` records only the duration it was last set to. -/
inductive TimerState where
  | armed (d : Nat) : TimerState
  | fired : TimerState
  deriving DecidableEq, Repr

/-- Program counter of a worker goroutine running `Pool.loop`:
either executing `f(g.ctx)` (the body of task `f`; `none` models a nil
`func` value, whose invocation panics), or blocked in the
`select` between `<-timer.C` and `f = <-g.pending`. -/
inductive WStatus where
  | running (f : Option Nat) : WStatus
  | selecting : WStatus
  deriving DecidableEq, Repr

/-- One live worker goroutine: its program counter and its idle timer.
Workers are removed from the pool state when `loop` returns. -/
structure Worker where
  status : WStatus
  timer : TimerState
  deriving DecidableEq, Repr

/-- Program counter of an in-flight `Execute` call: blocked in the
two-way `select`, or returned to the caller. -/
inductive SStatus where
  | atSelect : SStatus
  | returned : SStatus
  deriving DecidableEq, Repr

/-- One `Execute(f)` call: the task argument (`none` models `Execute(nil)`,
a real task gets a ghost identity) and its program counter. -/
structure Submitter where
  task : Option Nat
  status : SStatus
  deriving DecidableEq, Repr

/-- Program counter of an in-flight `Close(grace)` call, following the
statements of `Close`:
`start` = before the mutex-guarded `closed` check;
`won` = set `closed = true` and released the mutex;
`chansP` = also ran `close(g.pending)`;
`chansT` = also ran `close(g.tokens)`;
`waiting` = past the optional `g.cancel()`, blocked in `g.wait.Wait()`;
`returnedEff` = returned after performing the shutdown sequence;
`returnedNoop` = returned through the early `if g.closed` guard. -/
inductive CStatus where
  | start : CStatus
  | won : CStatus
  | chansP : CStatus
  | chansT : CStatus
  | waiting : CStatus
  | returnedEff : CStatus
  | returnedNoop : CStatus
  deriving DecidableEq, Repr

/-- One `Close(grace)` call. -/
structure Closer where
  grace : Bool
  status : CStatus
  deriving DecidableEq, Repr

/-- The whole state: the fields of the Go `Pool` struct plus the threads
operating on it and the ghost bookkeeping.  `tokens` is the number of
values currently buffered in the `tokens` channel; `waitCount` is the
`sync.WaitGroup` counter; `cancelled` says whether the pool has cancelled
its shared context. -/
structure Pool where
  concurrent : Nat
  idleTimeout : Nat
  hasRecover : Bool
  tokens : Nat
  tokensClosed : Bool
  pendingClosed : Bool
  closed : Bool
  cancelled : Bool
  waitCount : Nat
  workers : List Worker
  subs : List Submitter
  closers : List Closer
  nextId : Nat
  execs : List Nat
  drops : List Nat
  recovers : List Payload
  deriving DecidableEq, Repr

/-- A construction-time option, mirroring the `PoolOpt` functions.
`withCtx` installs a caller-supplied root context; the identity of the
context is not modelled, only whether the pool has cancelled its derived
child, so the option is a no-op on this state. -/
inductive PoolOpt where
  | withCtx : PoolOpt
  | withConcurrent (n : Nat) : PoolOpt
  | withIdleTimeout (d : Nat) : PoolOpt
  | withRecover : PoolOpt
  deriving DecidableEq, Repr

/-- Apply one option to the pool under construction, as `opt(&pool)`. -/
def applyOpt (p : Pool) (o : PoolOpt) : Pool :=
  match o with
  | .withCtx => p
  | .withConcurrent n => { p with concurrent := n }
  | .withIdleTimeout d => { p with idleTimeout := d }
  | .withRecover => { p with hasRecover := true }

/-- `NewPool(opts...)`: defaults `concurrent = 10` and
`idleTimeout = time.Second` (10^9 ns), options applied in order, then
`tokens = make(chan struct{}, concurrent)` (empty buffer) and the
cancellable child context are created.  No goroutine is started. -/
def NewPool (opts : List PoolOpt) : Pool :=
  opts.foldl applyOpt
    { concurrent := 10
      idleTimeout := 1000000000
      hasRecover := false
      tokens := 0
      tokensClosed := false
      pendingClosed := false
      closed := false
      cancelled := false
      waitCount := 0
      workers := []
      subs := []
      closers := []
      nextId := 0
      execs := []
      drops := []
      recovers := [] }

/-- `doRecover` invoked while a panic with payload `r` is in flight:
`recover()` returns `r ≠ nil`, and `g.recoverFunc(r)` runs only when a
recover function is configured.  Returns the updated call log. -/
def doRecover (g : Pool) (r : Payload) : List Payload :=
  if g.hasRecover then r :: g.recovers else g.recovers

/-- Does this submitter currently hold (not yet deliver) task `u`?  True
while its `Execute(f)` call with `f`'s ghost identity `u` is still blocked
in the select. -/
def Submitter.holds (u : Nat) (sub : Submitter) : Bool :=
  match sub.status with
  | .atSelect =>
    match sub.task with
    | some v => v == u
    | none => false
  | .returned => false

/-- Number of in-flight `Execute` calls still holding task `u`. -/
def holders (s : Pool) (u : Nat) : Nat :=
  s.subs.countP (Submitter.holds u)

/-- Is this worker currently executing a (non-nil) task body? -/
def Worker.runningBody (w : Worker) : Bool :=
  match w.status with
  | .running (some _) => true
  | _ => false

/-- Number of task bodies executing concurrently right now. -/
def runningBodies (s : Pool) : Nat :=
  s.workers.countP Worker.runningBody

/-- Has this `Close` call passed the mutex-guarded `closed` check as the
winner, i.e. is it the call performing (or having performed) the actual
shutdown sequence? -/
def Closer.eff (c : Closer) : Bool :=
  match c.status with
  | .start => false
  | .returnedNoop => false
  | _ => true

/-- One atomic transition of the pool.  Each constructor names the piece
of `pool.go` it embeds. -/
inductive Step : Pool → Pool → Prop where
  /-- A caller invokes `g.Execute(f)` with a non-nil task `f`; the call
  enters the `select` of `Execute`.  The task gets fresh ghost identity
  `s.nextId`. -/
  | callExecute (s : Pool) :
      Step s { s with subs := ⟨some s.nextId, .atSelect⟩ :: s.subs,
                      nextId := s.nextId + 1 }
  /-- A caller invokes `g.Execute(nil)`. -/
  | callExecuteNil (s : Pool) :
      Step s { s with subs := ⟨none, .atSelect⟩ :: s.subs }
  /-- `case g.pending <- f` in `Execute` rendezvouses with
  `case f = <-g.pending` in a worker's `select`: the worker receives a
  non-nil `f`, stops and drains its timer (`if !timer.Stop() <-timer.C`),
  resets it to `idleTimeout`, and re-enters the loop body `f(g.ctx)`.
  Requires `pending` not closed (a send on a closed channel panics instead,
  see `execSendClosed`). -/
  | execHandoff (s : Pool) (sl sr : List Submitter) (wl wr : List Worker)
      (t : Nat) (tm : TimerState)
      (hs : s.subs = sl ++ ⟨some t, .atSelect⟩ :: sr)
      (hw : s.workers = wl ++ ⟨.selecting, tm⟩ :: wr)
      (hp : s.pendingClosed = false) :
      Step s { s with subs := sl ++ ⟨some t, .returned⟩ :: sr,
                      workers :=
                        wl ++ ⟨.running (some t), .armed s.idleTimeout⟩ :: wr,
                      execs := t :: s.execs }
  /-- `Execute(nil)` rendezvouses with an idle worker: the worker receives
  `f = nil`, takes the `if f == nil { return }` branch and exits; its
  deferred statements receive back its token and decrement the wait
  group. -/
  | execHandoffNil (s : Pool) (sl sr : List Submitter) (wl wr : List Worker)
      (tm : TimerState)
      (hs : s.subs = sl ++ ⟨none, .atSelect⟩ :: sr)
      (hw : s.workers = wl ++ ⟨.selecting, tm⟩ :: wr)
      (hp : s.pendingClosed = false)
      (hg : 0 < s.tokens ∨ s.tokensClosed = true) :
      Step s { s with subs := sl ++ ⟨none, .returned⟩ :: sr,
                      workers := wl ++ wr,
                      tokens := s.tokens - 1,
                      waitCount := s.waitCount - 1 }
  /-- `case g.tokens <- struct{}{}` in `Execute` succeeds (the buffered
  channel has free capacity and is not closed): `g.wait.Add(1)` and
  `go g.loop(f)` start a fresh worker whose first job is `f`; the new
  worker's timer is created with `time.NewTimer(g.idleTimeout)`. -/
  | execSpawn (s : Pool) (sl sr : List Submitter) (f : Option Nat)
      (hs : s.subs = sl ++ ⟨f, .atSelect⟩ :: sr)
      (ht : s.tokensClosed = false)
      (hc : s.tokens < s.concurrent) :
      Step s { s with subs := sl ++ ⟨f, .returned⟩ :: sr,
                      tokens := s.tokens + 1,
                      waitCount := s.waitCount + 1,
                      workers :=
                        ⟨.running f, .armed s.idleTimeout⟩ :: s.workers,
                      execs := match f with
                               | some t => t :: s.execs
                               | none => s.execs }
  /-- After `Close` has closed `pending` (resp. `tokens`), the select in
  `Execute` choosing that send panics with "send on closed channel"; the
  deferred `g.doRecover()` of `Execute` recovers it and `Execute` returns.
  The task is dropped. -/
  | execSendClosed (s : Pool) (sl sr : List Submitter) (f : Option Nat)
      (hs : s.subs = sl ++ ⟨f, .atSelect⟩ :: sr)
      (hcl : s.pendingClosed = true ∨ s.tokensClosed = true) :
      Step s { s with subs := sl ++ ⟨f, .returned⟩ :: sr,
                      drops := match f with
                               | some t => t :: s.drops
                               | none => s.drops,
                      recovers := doRecover s Payload.sendOnClosedChannel }
  /-- The body `f(g.ctx)` of a worker's current task returns normally; the
  worker falls through to the `select` (its timer keeps running, it is not
  reset here). -/
  | loopBodyReturns (s : Pool) (wl wr : List Worker) (t : Nat)
      (tm : TimerState)
      (hw : s.workers = wl ++ ⟨.running (some t), tm⟩ :: wr) :
      Step s { s with workers := wl ++ ⟨.selecting, tm⟩ :: wr }
  /-- The body `f(g.ctx)` panics.  The panic unwinds `loop`; its deferred
  statements run in reverse order: `timer.Stop()`, `<-g.tokens`,
  `g.wait.Done()`, and finally `g.doRecover()` recovers the panic.  The
  worker goroutine terminates. -/
  | loopBodyPanics (s : Pool) (wl wr : List Worker) (t : Nat)
      (tm : TimerState)
      (hw : s.workers = wl ++ ⟨.running (some t), tm⟩ :: wr)
      (hg : 0 < s.tokens ∨ s.tokensClosed = true) :
      Step s { s with workers := wl ++ wr,
                      tokens := s.tokens - 1,
                      waitCount := s.waitCount - 1,
                      recovers := doRecover s (Payload.taskPanic t) }
  /-- A worker spawned by `Execute(nil)` calls `f(g.ctx)` with `f = nil`:
  the call panics immediately; same unwinding as `loopBodyPanics`. -/
  | loopNilCallPanics (s : Pool) (wl wr : List Worker) (tm : TimerState)
      (hw : s.workers = wl ++ ⟨.running none, tm⟩ :: wr)
      (hg : 0 < s.tokens ∨ s.tokensClosed = true) :
      Step s { s with workers := wl ++ wr,
                      tokens := s.tokens - 1,
                      waitCount := s.waitCount - 1,
                      recovers := doRecover s Payload.nilFunctionCall }
  /-- An armed timer fires (time passes; nondeterministic). -/
  | timerFires (s : Pool) (wl wr : List Worker) (st : WStatus) (d : Nat)
      (hw : s.workers = wl ++ ⟨st, .armed d⟩ :: wr) :
      Step s { s with workers := wl ++ ⟨st, .fired⟩ :: wr }
  /-- `case <-timer.C: return` — the idle timer has fired and the select
  takes it: the worker returns; deferred statements receive back its token
  and decrement the wait group. -/
  | loopIdleExit (s : Pool) (wl wr : List Worker)
      (hw : s.workers = wl ++ ⟨.selecting, .fired⟩ :: wr)
      (hg : 0 < s.tokens ∨ s.tokensClosed = true) :
      Step s { s with workers := wl ++ wr,
                      tokens := s.tokens - 1,
                      waitCount := s.waitCount - 1 }
  /-- After `close(g.pending)`, `f = <-g.pending` in a worker's select
  yields the zero value `nil` immediately; the worker takes
  `if f == nil { return }` and exits as in `loopIdleExit`. -/
  | loopPendingClosed (s : Pool) (wl wr : List Worker) (tm : TimerState)
      (hw : s.workers = wl ++ ⟨.selecting, tm⟩ :: wr)
      (hp : s.pendingClosed = true)
      (hg : 0 < s.tokens ∨ s.tokensClosed = true) :
      Step s { s with workers := wl ++ wr,
                      tokens := s.tokens - 1,
                      waitCount := s.waitCount - 1 }
  /-- A caller invokes `g.Close(grace)`. -/
  | callClose (s : Pool) (grace : Bool) :
      Step s { s with closers := ⟨grace, .start⟩ :: s.closers }
  /-- `g.Lock(); if g.closed { g.Unlock(); return }` — the pool is already
  closed, so this `Close` call returns at once, changing nothing. -/
  | closeAlreadyClosed (s : Pool) (cl cr : List Closer) (g : Bool)
      (hc : s.closers = cl ++ ⟨g, .start⟩ :: cr)
      (hcl : s.closed = true) :
      Step s { s with closers := cl ++ ⟨g, .returnedNoop⟩ :: cr }
  /-- `g.Lock(); ...; g.closed = true; g.Unlock()` — this call wins the
  guard and will perform the shutdown sequence. -/
  | closeSetFlag (s : Pool) (cl cr : List Closer) (g : Bool)
      (hc : s.closers = cl ++ ⟨g, .start⟩ :: cr)
      (hcl : s.closed = false) :
      Step s { s with closed := true, closers := cl ++ ⟨g, .won⟩ :: cr }
  /-- `close(g.pending)`. -/
  | closePendingChan (s : Pool) (cl cr : List Closer) (g : Bool)
      (hc : s.closers = cl ++ ⟨g, .won⟩ :: cr) :
      Step s { s with pendingClosed := true,
                      closers := cl ++ ⟨g, .chansP⟩ :: cr }
  /-- `close(g.tokens)`. -/
  | closeTokensChan (s : Pool) (cl cr : List Closer) (g : Bool)
      (hc : s.closers = cl ++ ⟨g, .chansP⟩ :: cr) :
      Step s { s with tokensClosed := true,
                      closers := cl ++ ⟨g, .chansT⟩ :: cr }
  /-- `if !grace { g.cancel() }` with `grace = false`: cancel the shared
  context, then proceed to `g.wait.Wait()`. -/
  | closeCancelCtx (s : Pool) (cl cr : List Closer)
      (hc : s.closers = cl ++ ⟨false, .chansT⟩ :: cr) :
      Step s { s with cancelled := true,
                      closers := cl ++ ⟨false, .waiting⟩ :: cr }
  /-- `if !grace { ... }` with `grace = true`: no cancellation; proceed to
  `g.wait.Wait()`. -/
  | closeNoCancel (s : Pool) (cl cr : List Closer)
      (hc : s.closers = cl ++ ⟨true, .chansT⟩ :: cr) :
      Step s { s with closers := cl ++ ⟨true, .waiting⟩ :: cr }
  /-- `g.wait.Wait()` returns: the wait-group counter is zero; `Close`
  returns. -/
  | closeWaitDone (s : Pool) (cl cr : List Closer) (g : Bool)
      (hc : s.closers = cl ++ ⟨g, .waiting⟩ :: cr)
      (hw : s.waitCount = 0) :
      Step s { s with closers := cl ++ ⟨g, .returnedEff⟩ :: cr }

/-- Reachability: `b` can arise from `a` by some interleaving of atomic
transitions. -/
abbrev Reaches (a b : Pool) : Prop :=
  Relation.ReflTransGen Step a b

/-- The global inductive invariant of the pool, established at `NewPool`
and preserved by every `Step`. -/
structure Inv (s : Pool) : Prop where
  /-- The wait-group counter counts exactly the live workers. -/
  wait_eq : s.waitCount = s.workers.length
  /-- Until `close(g.tokens)`, the tokens channel buffers exactly one
  value per live worker: each worker holds its token for its lifetime. -/
  tokens_eq : s.tokensClosed = false → s.tokens = s.workers.length
  /-- The tokens channel never buffers more than its capacity. -/
  tokens_le : s.tokens ≤ s.concurrent
  /-- At most `concurrent` workers are alive. -/
  alive_le : s.workers.length ≤ s.concurrent
  /-- `close(g.pending)` happens only after `closed` was set. -/
  pclosed_flag : s.pendingClosed = true → s.closed = true
  /-- `close(g.tokens)` happens only after `closed` was set. -/
  tclosed_flag : s.tokensClosed = true → s.closed = true
  /-- Submissions are dropped only after `closed` was set. -/
  drops_flag : ∀ t, 0 < s.drops.count t → s.closed = true
  /-- Conservation: every task ever submitted is, exclusively, either
  still held by its blocked `Execute` call, or has started executing
  exactly once, or was dropped by a recovered submission panic exactly
  once. -/
  conserve : ∀ t, t < s.nextId →
    s.execs.count t + holders s t + s.drops.count t = 1
  /-- Ghost identities not yet issued occur nowhere. -/
  fresh : ∀ t, s.nextId ≤ t →
    s.execs.count t = 0 ∧ holders s t = 0 ∧ s.drops.count t = 0
  /-- Any `Close` call past the guard implies the `closed` flag is set. -/
  eff_closed : ∀ c ∈ s.closers, Closer.eff c = true → s.closed = true
  /-- At most one `Close` call ever passes the guard. -/
  eff_unique : s.closers.countP Closer.eff ≤ 1
  /-- A closer at or past `chansP` has closed the pending channel. -/
  chans_p : ∀ c ∈ s.closers,
    (c.status = .chansP ∨ c.status = .chansT ∨ c.status = .waiting ∨
      c.status = .returnedEff) → s.pendingClosed = true
  /-- A closer at or past `chansT` has closed the tokens channel. -/
  chans_t : ∀ c ∈ s.closers,
    (c.status = .chansT ∨ c.status = .waiting ∨ c.status = .returnedEff) →
    s.tokensClosed = true
  /-- A non-graceful closer at or past `waiting` has cancelled the shared
  context. -/
  cancel_done : ∀ c ∈ s.closers, c.grace = false →
    (c.status = .waiting ∨ c.status = .returnedEff) → s.cancelled = true
  /-- The context is cancelled only by an effective `Close(false)`. -/
  cancel_src : s.cancelled = true →
    ∃ c, c ∈ s.closers ∧ c.grace = false ∧ Closer.eff c = true
  /-- When the effective `Close` call has returned, no worker is alive. -/
  drained : ∀ c ∈ s.closers, c.status = .returnedEff → s.workers = []

/-! ## Concrete runs used as witnesses

`sA*`: a default pool runs one task to completion and the worker idles.
`sP*`: a pool with a recover function runs a task whose body panics.
`sC*`: a default pool is closed gracefully, then `Close` is called again.
`sD*`: a default pool is closed non-gracefully.
`sN*`: `Execute(nil)` on a default pool spawns a worker with a nil task. -/

def sA0 : Pool := NewPool []

def sA1 : Pool := { sA0 with subs := [⟨some 0, .atSelect⟩], nextId := 1 }

def sA2 : Pool :=
  { sA1 with subs := [⟨some 0, .returned⟩], tokens := 1, waitCount := 1,
             workers := [⟨.running (some 0), .armed 1000000000⟩],
             execs := [0] }

def sA3 : Pool := { sA2 with workers := [⟨.selecting, .armed 1000000000⟩] }

def sA4 : Pool := { sA3 with workers := [⟨.selecting, .fired⟩] }

def sB2 : Pool := { sA1 with closers := [⟨true, .start⟩] }

def sB3 : Pool := { sB2 with closed := true, closers := [⟨true, .won⟩] }

def sB4 : Pool :=
  { sB3 with pendingClosed := true, closers := [⟨true, .chansP⟩] }

def sP0 : Pool := NewPool [.withRecover]

def sP1 : Pool := { sP0 with subs := [⟨some 0, .atSelect⟩], nextId := 1 }

def sP2 : Pool :=
  { sP1 with subs := [⟨some 0, .returned⟩], tokens := 1, waitCount := 1,
             workers := [⟨.running (some 0), .armed 1000000000⟩],
             execs := [0] }

def sP3 : Pool :=
  { sP2 with workers := [], tokens := 0, waitCount := 0,
             recovers := [.taskPanic 0] }

def sC0 : Pool := NewPool []

def sC1 : Pool := { sC0 with closers := [⟨true, .start⟩] }

def sC2 : Pool := { sC1 with closed := true, closers := [⟨true, .won⟩] }

def sC3 : Pool :=
  { sC2 with pendingClosed := true, closers := [⟨true, .chansP⟩] }

def sC4 : Pool :=
  { sC3 with tokensClosed := true, closers := [⟨true, .chansT⟩] }

def sC5 : Pool := { sC4 with closers := [⟨true, .waiting⟩] }

def sC6 : Pool := { sC5 with closers := [⟨true, .returnedEff⟩] }

def sC7 : Pool :=
  { sC6 with closers := [⟨false, .start⟩, ⟨true, .returnedEff⟩] }

def sC8 : Pool :=
  { sC7 with closers := [⟨false, .returnedNoop⟩, ⟨true, .returnedEff⟩] }

def sD1 : Pool := { sC0 with closers := [⟨false, .start⟩] }

def sD2 : Pool := { sD1 with closed := true, closers := [⟨false, .won⟩] }

def sD3 : Pool :=
  { sD2 with pendingClosed := true, closers := [⟨false, .chansP⟩] }

def sD4 : Pool :=
  { sD3 with tokensClosed := true, closers := [⟨false, .chansT⟩] }

def sD5 : Pool :=
  { sD4 with cancelled := true, closers := [⟨false, .waiting⟩] }

def sN1 : Pool := { sC0 with subs := [⟨none, .atSelect⟩] }

def sN2 : Pool :=
  { sN1 with subs := [⟨none, .returned⟩], tokens := 1, waitCount := 1,
             workers := [⟨.running none, .armed 1000000000⟩] }

/-! ## Generic list-counting helpers -/

theorem countP_split {α : Type} (p : α → Bool) (l r : List α) (x : α) :
    (l ++ x :: r).countP p =
      l.countP p + r.countP p + (if p x then 1 else 0) := by
  simp [List.countP_append, List.countP_cons]
  omega

theorem count_split (l r : List Nat) (x u : Nat) :
    (l ++ x :: r).count u = l.count u + r.count u + (if x = u then 1 else 0) := by
  simp [List.count_append, List.count_cons]
  omega

theorem length_split {α : Type} (l r : List α) (x : α) :
    (l ++ x :: r).length = l.length + r.length + 1 := by
  simp
  omega

theorem forall_mem_split {α : Type} {P : α → Prop} {l r : List α} {x : α}
    (h : ∀ c ∈ l ++ x :: r, P c) :
    P x ∧ (∀ c ∈ l, P c) ∧ (∀ c ∈ r, P c) := by
  refine ⟨h x ?_, fun c hc => h c ?_, fun c hc => h c ?_⟩
  · exact List.mem_append.mpr (Or.inr (List.mem_cons_self _ _))
  · exact List.mem_append.mpr (Or.inl hc)
  · exact List.mem_append.mpr (Or.inr (List.mem_cons_of_mem _ hc))

theorem forall_mem_update {α : Type} {P : α → Prop} {l r : List α} {x y : α}
    (h : ∀ c ∈ l ++ y :: r, P c) (hx : P x) : ∀ c ∈ l ++ x :: r, P c := by
  intro c hc
  rcases List.mem_append.mp hc with h1 | h2
  · exact h c (List.mem_append.mpr (Or.inl h1))
  · rcases List.mem_cons.mp h2 with rfl | h3
    · exact hx
    · exact h c (List.mem_append.mpr (Or.inr (List.mem_cons_of_mem _ h3)))

theorem mem_split_cases {α : Type} {l r : List α} {x c : α}
    (hc : c ∈ l ++ x :: r) : c = x ∨ c ∈ l ∨ c ∈ r := by
  rcases List.mem_append.mp hc with h1 | h2
  · exact Or.inr (Or.inl h1)
  · rcases List.mem_cons.mp h2 with rfl | h3
    · exact Or.inl rfl
    · exact Or.inr (Or.inr h3)

theorem mem_split_intro {α : Type} {l r : List α} (x : α) {c : α}
    (hc : c ∈ l ∨ c ∈ r) : c ∈ l ++ x :: r := by
  rcases hc with h | h
  · exact List.mem_append.mpr (Or.inl h)
  · exact List.mem_append.mpr (Or.inr (List.mem_cons_of_mem _ h))

/-! ## The dynamic fields of a freshly constructed pool -/

theorem newPool_dynamic (opts : List PoolOpt) :
    (NewPool opts).tokens = 0 ∧
    (NewPool opts).tokensClosed = false ∧
    (NewPool opts).pendingClosed = false ∧
    (NewPool opts).closed = false ∧
    (NewPool opts).cancelled = false ∧
    (NewPool opts).waitCount = 0 ∧
    (NewPool opts).workers = [] ∧
    (NewPool opts).subs = [] ∧
    (NewPool opts).closers = [] ∧
    (NewPool opts).nextId = 0 ∧
    (NewPool opts).execs = [] ∧
    (NewPool opts).drops = [] ∧
    (NewPool opts).recovers = [] := by
  have key : ∀ (l : List PoolOpt) (p : Pool),
      (l.foldl applyOpt p).tokens = p.tokens ∧
      (l.foldl applyOpt p).tokensClosed = p.tokensClosed ∧
      (l.foldl applyOpt p).pendingClosed = p.pendingClosed ∧
      (l.foldl applyOpt p).closed = p.closed ∧
      (l.foldl applyOpt p).cancelled = p.cancelled ∧
      (l.foldl applyOpt p).waitCount = p.waitCount ∧
      (l.foldl applyOpt p).workers = p.workers ∧
      (l.foldl applyOpt p).subs = p.subs ∧
      (l.foldl applyOpt p).closers = p.closers ∧
      (l.foldl applyOpt p).nextId = p.nextId ∧
      (l.foldl applyOpt p).execs = p.execs ∧
      (l.foldl applyOpt p).drops = p.drops ∧
      (l.foldl applyOpt p).recovers = p.recovers := by
    intro l
    induction l with
    | nil => intro p; simp
    | cons o rest ih =>
      intro p
      have := ih (applyOpt p o)
      cases o <;> simpa [applyOpt] using this
  simpa [NewPool] using key opts _

/-- The invariant holds at construction. -/
theorem inv_newPool (opts : List PoolOpt) : Inv (NewPool opts) := by
  obtain ⟨h1, h2, h3, h4, h5, h6, h7, h8, h9, h10, h11, h12, h13⟩ :=
    newPool_dynamic opts
  refine ⟨?_, ?_, ?_, ?_, ?_, ?_, ?_, ?_, ?_, ?_, ?_, ?_, ?_, ?_, ?_, ?_⟩
  · rw [h6, h7]; rfl
  · intro _; rw [h1, h7]; rfl
  · rw [h1]; exact Nat.zero_le _
  · rw [h7]; exact Nat.zero_le _
  · rw [h3]; intro h; cases h
  · rw [h2]; intro h; cases h
  · intro t; rw [h12]; simp
  · intro t ht; rw [h10] at ht; omega
  · intro t _
    refine ⟨?_, ?_, ?_⟩
    · rw [h11]; simp
    · rw [holders, h8]; simp
    · rw [h12]; simp
  · intro c hc; rw [h9] at hc; cases hc
  · rw [h9]; simp
  · intro c hc; rw [h9] at hc; cases hc
  · intro c hc; rw [h9] at hc; cases hc
  · intro c hc; rw [h9] at hc; cases hc
  · rw [h5]; intro h; cases h
  · intro c hc; rw [h9] at hc; cases hc

/-! ## Small evaluation facts about `Submitter.holds` -/

theorem holds_some (u v : Nat) :
    Submitter.holds u ⟨some v, .atSelect⟩ = (v == u) := rfl

theorem holds_none (u : Nat) :
    Submitter.holds u ⟨none, .atSelect⟩ = false := rfl

theorem holds_ret (u : Nat) (f : Option Nat) :
    Submitter.holds u ⟨f, .returned⟩ = false := rfl

theorem countP_cons_eq {α : Type} (p : α → Bool) (l : List α) (x : α) :
    (x :: l).countP p = l.countP p + (if p x then 1 else 0) := by
  simp [List.countP_cons]

theorem count_cons_eq (l : List Nat) (x u : Nat) :
    (x :: l).count u = l.count u + (if x = u then 1 else 0) := by
  simp [List.count_cons]

/-! ## Preservation of the invariant, by groups of fields -/

/-- Counter bookkeeping is preserved by every step: the wait group counts
live workers, each live worker holds one buffered token (until the tokens
channel is closed), and neither tokens nor workers ever exceed the
capacity. -/
theorem step_counters {s s' : Pool} (inv : Inv s) (h : Step s s') :
    s'.waitCount = s'.workers.length ∧
    (s'.tokensClosed = false → s'.tokens = s'.workers.length) ∧
    s'.tokens ≤ s'.concurrent ∧
    s'.workers.length ≤ s'.concurrent := by
  have w_eq := inv.wait_eq
  have t_le := inv.tokens_le
  have a_le := inv.alive_le
  cases h with
  | callExecute => exact ⟨w_eq, inv.tokens_eq, t_le, a_le⟩
  | callExecuteNil => exact ⟨w_eq, inv.tokens_eq, t_le, a_le⟩
  | execHandoff sl sr wl wr t tm hs hw hp =>
      dsimp only
      have hlen :
          (wl ++ (⟨.running (some t), .armed s.idleTimeout⟩ : Worker) :: wr).length
            = s.workers.length := by
        rw [hw, length_split, length_split]
      exact ⟨by rw [hlen]; exact w_eq,
        fun hf => by rw [hlen]; exact inv.tokens_eq hf,
        t_le, by rw [hlen]; exact a_le⟩
  | execHandoffNil sl sr wl wr tm hs hw hp hg =>
      dsimp only
      have hlen : s.workers.length = (wl ++ wr).length + 1 := by
        rw [hw, length_split]; simp
      refine ⟨by omega, fun hf => ?_, by omega, by omega⟩
      have := inv.tokens_eq hf
      omega
  | execSpawn sl sr f hs ht hc =>
      dsimp only
      have t_eq := inv.tokens_eq ht
      simp only [List.length_cons]
      exact ⟨by omega, fun _ => by omega, by omega, by omega⟩
  | execSendClosed sl sr f hs hcl => exact ⟨w_eq, inv.tokens_eq, t_le, a_le⟩
  | loopBodyReturns wl wr t tm hw =>
      dsimp only
      have hlen : (wl ++ (⟨.selecting, tm⟩ : Worker) :: wr).length
          = s.workers.length := by
        rw [hw, length_split, length_split]
      exact ⟨by rw [hlen]; exact w_eq,
        fun hf => by rw [hlen]; exact inv.tokens_eq hf,
        t_le, by rw [hlen]; exact a_le⟩
  | loopBodyPanics wl wr t tm hw hg =>
      dsimp only
      have hlen : s.workers.length = (wl ++ wr).length + 1 := by
        rw [hw, length_split]; simp
      refine ⟨by omega, fun hf => ?_, by omega, by omega⟩
      have := inv.tokens_eq hf
      omega
  | loopNilCallPanics wl wr tm hw hg =>
      dsimp only
      have hlen : s.workers.length = (wl ++ wr).length + 1 := by
        rw [hw, length_split]; simp
      refine ⟨by omega, fun hf => ?_, by omega, by omega⟩
      have := inv.tokens_eq hf
      omega
  | timerFires wl wr st d hw =>
      dsimp only
      have hlen : (wl ++ (⟨st, .fired⟩ : Worker) :: wr).length
          = s.workers.length := by
        rw [hw, length_split, length_split]
      exact ⟨by rw [hlen]; exact w_eq,
        fun hf => by rw [hlen]; exact inv.tokens_eq hf,
        t_le, by rw [hlen]; exact a_le⟩
  | loopIdleExit wl wr hw hg =>
      dsimp only
      have hlen : s.workers.length = (wl ++ wr).length + 1 := by
        rw [hw, length_split]; simp
      refine ⟨by omega, fun hf => ?_, by omega, by omega⟩
      have := inv.tokens_eq hf
      omega
  | loopPendingClosed wl wr tm hw hp hg =>
      dsimp only
      have hlen : s.workers.length = (wl ++ wr).length + 1 := by
        rw [hw, length_split]; simp
      refine ⟨by omega, fun hf => ?_, by omega, by omega⟩
      have := inv.tokens_eq hf
      omega
  | callClose grace => exact ⟨w_eq, inv.tokens_eq, t_le, a_le⟩
  | closeAlreadyClosed cl cr g hc hcl => exact ⟨w_eq, inv.tokens_eq, t_le, a_le⟩
  | closeSetFlag cl cr g hc hcl => exact ⟨w_eq, inv.tokens_eq, t_le, a_le⟩
  | closePendingChan cl cr g hc => exact ⟨w_eq, inv.tokens_eq, t_le, a_le⟩
  | closeTokensChan cl cr g hc =>
      refine ⟨w_eq, fun hf => ?_, t_le, a_le⟩
      dsimp only at hf
      simp at hf
  | closeCancelCtx cl cr hc => exact ⟨w_eq, inv.tokens_eq, t_le, a_le⟩
  | closeNoCancel cl cr hc => exact ⟨w_eq, inv.tokens_eq, t_le, a_le⟩
  | closeWaitDone cl cr g hc hw => exact ⟨w_eq, inv.tokens_eq, t_le, a_le⟩

/-- The channel-closed / dropped-submission flags imply `closed`, after
every step. -/
theorem step_flags {s s' : Pool} (inv : Inv s) (h : Step s s') :
    (s'.pendingClosed = true → s'.closed = true) ∧
    (s'.tokensClosed = true → s'.closed = true) ∧
    (∀ t, 0 < s'.drops.count t → s'.closed = true) := by
  cases h with
  | callExecute => exact ⟨inv.pclosed_flag, inv.tclosed_flag, inv.drops_flag⟩
  | callExecuteNil => exact ⟨inv.pclosed_flag, inv.tclosed_flag, inv.drops_flag⟩
  | execHandoff sl sr wl wr t tm hs hw hp =>
      exact ⟨inv.pclosed_flag, inv.tclosed_flag, inv.drops_flag⟩
  | execHandoffNil sl sr wl wr tm hs hw hp hg =>
      exact ⟨inv.pclosed_flag, inv.tclosed_flag, inv.drops_flag⟩
  | execSpawn sl sr f hs ht hc =>
      exact ⟨inv.pclosed_flag, inv.tclosed_flag, inv.drops_flag⟩
  | execSendClosed sl sr f hs hcl =>
      have hclosed : s.closed = true := by
        rcases hcl with h | h
        · exact inv.pclosed_flag h
        · exact inv.tclosed_flag h
      exact ⟨inv.pclosed_flag, inv.tclosed_flag, fun _ _ => hclosed⟩
  | loopBodyReturns wl wr t tm hw =>
      exact ⟨inv.pclosed_flag, inv.tclosed_flag, inv.drops_flag⟩
  | loopBodyPanics wl wr t tm hw hg =>
      exact ⟨inv.pclosed_flag, inv.tclosed_flag, inv.drops_flag⟩
  | loopNilCallPanics wl wr tm hw hg =>
      exact ⟨inv.pclosed_flag, inv.tclosed_flag, inv.drops_flag⟩
  | timerFires wl wr st d hw =>
      exact ⟨inv.pclosed_flag, inv.tclosed_flag, inv.drops_flag⟩
  | loopIdleExit wl wr hw hg =>
      exact ⟨inv.pclosed_flag, inv.tclosed_flag, inv.drops_flag⟩
  | loopPendingClosed wl wr tm hw hp hg =>
      exact ⟨inv.pclosed_flag, inv.tclosed_flag, inv.drops_flag⟩
  | callClose grace => exact ⟨inv.pclosed_flag, inv.tclosed_flag, inv.drops_flag⟩
  | closeAlreadyClosed cl cr g hc hcl =>
      exact ⟨inv.pclosed_flag, inv.tclosed_flag, inv.drops_flag⟩
  | closeSetFlag cl cr g hc hcl =>
      exact ⟨fun _ => rfl, fun _ => rfl, fun _ _ => rfl⟩
  | closePendingChan cl cr g hc =>
      have hclosed : s.closed = true := by
        refine inv.eff_closed ⟨g, .won⟩ ?_ rfl
        rw [hc]; exact List.mem_append.mpr (Or.inr (List.mem_cons_self _ _))
      exact ⟨fun _ => hclosed, fun h => inv.tclosed_flag h,
        fun t h => inv.drops_flag t h⟩
  | closeTokensChan cl cr g hc =>
      have hclosed : s.closed = true := by
        refine inv.eff_closed ⟨g, .chansP⟩ ?_ rfl
        rw [hc]; exact List.mem_append.mpr (Or.inr (List.mem_cons_self _ _))
      exact ⟨fun h => inv.pclosed_flag h, fun _ => hclosed,
        fun t h => inv.drops_flag t h⟩
  | closeCancelCtx cl cr hc =>
      exact ⟨inv.pclosed_flag, inv.tclosed_flag, inv.drops_flag⟩
  | closeNoCancel cl cr hc =>
      exact ⟨inv.pclosed_flag, inv.tclosed_flag, inv.drops_flag⟩
  | closeWaitDone cl cr g hc hw =>
      exact ⟨inv.pclosed_flag, inv.tclosed_flag, inv.drops_flag⟩

theorem holders_def (s : Pool) (u : Nat) :
    holders s u = s.subs.countP (Submitter.holds u) := rfl

theorem if_beq_eq (t u : Nat) :
    (if (t == u) = true then (1 : Nat) else 0) = if t = u then 1 else 0 := by
  by_cases h : t = u <;> simp [h]

theorem if_false_bool :
    (if (false = true) then (1 : Nat) else 0) = 0 := by simp

/-- The ghost conservation law is preserved: every issued task identity is
accounted for exactly once (held, started, or dropped), and unissued
identities appear nowhere. -/
theorem step_ghost {s s' : Pool} (inv : Inv s) (h : Step s s') :
    (∀ t, t < s'.nextId →
      s'.execs.count t + holders s' t + s'.drops.count t = 1) ∧
    (∀ t, s'.nextId ≤ t →
      s'.execs.count t = 0 ∧ holders s' t = 0 ∧ s'.drops.count t = 0) := by
  have hcons := inv.conserve
  have hfr := inv.fresh
  simp only [holders_def] at hcons hfr ⊢
  cases h with
  | callExecute =>
      dsimp only
      constructor
      · intro u hu
        rw [countP_cons_eq, holds_some, if_beq_eq]
        by_cases he : s.nextId = u
        · obtain ⟨e0, h0, d0⟩ := hfr u (by omega)
          rw [if_pos he]
          omega
        · have hc1 := hcons u (by omega)
          rw [if_neg he]
          omega
      · intro u hu
        obtain ⟨e0, h0, d0⟩ := hfr u (by omega)
        rw [countP_cons_eq, holds_some, if_beq_eq]
        have hne : s.nextId ≠ u := by omega
        rw [if_neg hne]
        exact ⟨e0, by omega, d0⟩
  | callExecuteNil =>
      dsimp only
      constructor
      · intro u hu
        rw [countP_cons_eq, holds_none, if_false_bool]
        have hc1 := hcons u hu
        omega
      · intro u hu
        obtain ⟨e0, h0, d0⟩ := hfr u hu
        rw [countP_cons_eq, holds_none, if_false_bool]
        exact ⟨e0, by omega, d0⟩
  | execHandoff sl sr wl wr t tm hs hw hp =>
      dsimp only
      constructor
      · intro u hu
        have hc1 := hcons u hu
        rw [hs, countP_split, holds_some, if_beq_eq] at hc1
        rw [count_cons_eq, countP_split, holds_ret, if_false_bool]
        by_cases he : t = u
        · rw [if_pos he] at hc1
          rw [if_pos he]
          omega
        · rw [if_neg he] at hc1
          rw [if_neg he]
          omega
      · intro u hu
        obtain ⟨e0, h0, d0⟩ := hfr u hu
        rw [hs, countP_split, holds_some, if_beq_eq] at h0
        rw [count_cons_eq, countP_split, holds_ret, if_false_bool]
        by_cases he : t = u
        · rw [if_pos he] at h0
          exact ⟨by omega, by omega, by omega⟩
        · rw [if_neg he] at h0
          rw [if_neg he]
          exact ⟨by omega, by omega, by omega⟩
  | execHandoffNil sl sr wl wr tm hs hw hp hg =>
      dsimp only
      constructor
      · intro u hu
        have hc1 := hcons u hu
        rw [hs, countP_split, holds_none, if_false_bool] at hc1
        rw [countP_split, holds_ret, if_false_bool]
        omega
      · intro u hu
        obtain ⟨e0, h0, d0⟩ := hfr u hu
        rw [hs, countP_split, holds_none, if_false_bool] at h0
        rw [countP_split, holds_ret, if_false_bool]
        exact ⟨e0, by omega, d0⟩
  | execSpawn sl sr f hs ht hc =>
      cases f with
      | some t =>
          dsimp only
          constructor
          · intro u hu
            have hc1 := hcons u hu
            rw [hs, countP_split, holds_some, if_beq_eq] at hc1
            rw [count_cons_eq, countP_split, holds_ret, if_false_bool]
            by_cases he : t = u
            · rw [if_pos he] at hc1
              rw [if_pos he]
              omega
            · rw [if_neg he] at hc1
              rw [if_neg he]
              omega
          · intro u hu
            obtain ⟨e0, h0, d0⟩ := hfr u hu
            rw [hs, countP_split, holds_some, if_beq_eq] at h0
            rw [count_cons_eq, countP_split, holds_ret, if_false_bool]
            by_cases he : t = u
            · rw [if_pos he] at h0
              exact ⟨by omega, by omega, by omega⟩
            · rw [if_neg he] at h0
              rw [if_neg he]
              exact ⟨by omega, by omega, by omega⟩
      | none =>
          dsimp only
          constructor
          · intro u hu
            have hc1 := hcons u hu
            rw [hs, countP_split, holds_none, if_false_bool] at hc1
            rw [countP_split, holds_ret, if_false_bool]
            omega
          · intro u hu
            obtain ⟨e0, h0, d0⟩ := hfr u hu
            rw [hs, countP_split, holds_none, if_false_bool] at h0
            rw [countP_split, holds_ret, if_false_bool]
            exact ⟨e0, by omega, d0⟩
  | execSendClosed sl sr f hs hcl =>
      cases f with
      | some t =>
          dsimp only
          constructor
          · intro u hu
            have hc1 := hcons u hu
            rw [hs, countP_split, holds_some, if_beq_eq] at hc1
            rw [count_cons_eq, countP_split, holds_ret, if_false_bool]
            by_cases he : t = u
            · rw [if_pos he] at hc1
              rw [if_pos he]
              omega
            · rw [if_neg he] at hc1
              rw [if_neg he]
              omega
          · intro u hu
            obtain ⟨e0, h0, d0⟩ := hfr u hu
            rw [hs, countP_split, holds_some, if_beq_eq] at h0
            rw [count_cons_eq, countP_split, holds_ret, if_false_bool]
            by_cases he : t = u
            · rw [if_pos he] at h0
              exact ⟨by omega, by omega, by omega⟩
            · rw [if_neg he] at h0
              rw [if_neg he]
              exact ⟨by omega, by omega, by omega⟩
      | none =>
          dsimp only
          constructor
          · intro u hu
            have hc1 := hcons u hu
            rw [hs, countP_split, holds_none, if_false_bool] at hc1
            rw [countP_split, holds_ret, if_false_bool]
            omega
          · intro u hu
            obtain ⟨e0, h0, d0⟩ := hfr u hu
            rw [hs, countP_split, holds_none, if_false_bool] at h0
            rw [countP_split, holds_ret, if_false_bool]
            exact ⟨e0, by omega, d0⟩
  | loopBodyReturns wl wr t tm hw => exact ⟨hcons, hfr⟩
  | loopBodyPanics wl wr t tm hw hg => exact ⟨hcons, hfr⟩
  | loopNilCallPanics wl wr tm hw hg => exact ⟨hcons, hfr⟩
  | timerFires wl wr st d hw => exact ⟨hcons, hfr⟩
  | loopIdleExit wl wr hw hg => exact ⟨hcons, hfr⟩
  | loopPendingClosed wl wr tm hw hp hg => exact ⟨hcons, hfr⟩
  | callClose grace => exact ⟨hcons, hfr⟩
  | closeAlreadyClosed cl cr g hc hcl => exact ⟨hcons, hfr⟩
  | closeSetFlag cl cr g hc hcl => exact ⟨hcons, hfr⟩
  | closePendingChan cl cr g hc => exact ⟨hcons, hfr⟩
  | closeTokensChan cl cr g hc => exact ⟨hcons, hfr⟩
  | closeCancelCtx cl cr hc => exact ⟨hcons, hfr⟩
  | closeNoCancel cl cr hc => exact ⟨hcons, hfr⟩
  | closeWaitDone cl cr g hc hw => exact ⟨hcons, hfr⟩


/-- The `Close`-protocol facts are preserved: at most one effective
closer, channel flags follow the closer's progress, cancellation tracks
non-graceful close, and an effective `Close` returns only with no worker
alive. -/
theorem step_closers {s s' : Pool} (inv : Inv s) (h : Step s s') :
    (∀ c ∈ s'.closers, Closer.eff c = true → s'.closed = true) ∧
    s'.closers.countP Closer.eff ≤ 1 ∧
    (∀ c ∈ s'.closers,
      (c.status = .chansP ∨ c.status = .chansT ∨ c.status = .waiting ∨
        c.status = .returnedEff) → s'.pendingClosed = true) ∧
    (∀ c ∈ s'.closers,
      (c.status = .chansT ∨ c.status = .waiting ∨ c.status = .returnedEff) →
      s'.tokensClosed = true) ∧
    (∀ c ∈ s'.closers, c.grace = false →
      (c.status = .waiting ∨ c.status = .returnedEff) → s'.cancelled = true) ∧
    (s'.cancelled = true →
      ∃ c, c ∈ s'.closers ∧ c.grace = false ∧ Closer.eff c = true) ∧
    (∀ c ∈ s'.closers, c.status = .returnedEff → s'.workers = []) := by
  cases h with
  | callExecute =>
      exact ⟨inv.eff_closed, inv.eff_unique, inv.chans_p, inv.chans_t,
        inv.cancel_done, inv.cancel_src, inv.drained⟩
  | callExecuteNil =>
      exact ⟨inv.eff_closed, inv.eff_unique, inv.chans_p, inv.chans_t,
        inv.cancel_done, inv.cancel_src, inv.drained⟩
  | execSendClosed sl sr f hs hcl =>
      exact ⟨inv.eff_closed, inv.eff_unique, inv.chans_p, inv.chans_t,
        inv.cancel_done, inv.cancel_src, inv.drained⟩
  | execHandoff sl sr wl wr t tm hs hw hp =>
      refine ⟨inv.eff_closed, inv.eff_unique, inv.chans_p, inv.chans_t,
        inv.cancel_done, inv.cancel_src, fun c hc hret => ?_⟩
      have hd := inv.drained c hc hret
      rw [hw] at hd
      simp at hd
  | execHandoffNil sl sr wl wr tm hs hw hp hg =>
      refine ⟨inv.eff_closed, inv.eff_unique, inv.chans_p, inv.chans_t,
        inv.cancel_done, inv.cancel_src, fun c hc hret => ?_⟩
      have hd := inv.drained c hc hret
      rw [hw] at hd
      simp at hd
  | execSpawn sl sr f hs ht hc =>
      refine ⟨inv.eff_closed, inv.eff_unique, inv.chans_p, inv.chans_t,
        inv.cancel_done, inv.cancel_src, fun c hc2 hret => ?_⟩
      have := inv.chans_t c hc2 (Or.inr (Or.inr hret))
      rw [this] at ht
      simp at ht
  | loopBodyReturns wl wr t tm hw =>
      refine ⟨inv.eff_closed, inv.eff_unique, inv.chans_p, inv.chans_t,
        inv.cancel_done, inv.cancel_src, fun c hc hret => ?_⟩
      have hd := inv.drained c hc hret
      rw [hw] at hd
      simp at hd
  | loopBodyPanics wl wr t tm hw hg =>
      refine ⟨inv.eff_closed, inv.eff_unique, inv.chans_p, inv.chans_t,
        inv.cancel_done, inv.cancel_src, fun c hc hret => ?_⟩
      have hd := inv.drained c hc hret
      rw [hw] at hd
      simp at hd
  | loopNilCallPanics wl wr tm hw hg =>
      refine ⟨inv.eff_closed, inv.eff_unique, inv.chans_p, inv.chans_t,
        inv.cancel_done, inv.cancel_src, fun c hc hret => ?_⟩
      have hd := inv.drained c hc hret
      rw [hw] at hd
      simp at hd
  | timerFires wl wr st d hw =>
      refine ⟨inv.eff_closed, inv.eff_unique, inv.chans_p, inv.chans_t,
        inv.cancel_done, inv.cancel_src, fun c hc hret => ?_⟩
      have hd := inv.drained c hc hret
      rw [hw] at hd
      simp at hd
  | loopIdleExit wl wr hw hg =>
      refine ⟨inv.eff_closed, inv.eff_unique, inv.chans_p, inv.chans_t,
        inv.cancel_done, inv.cancel_src, fun c hc hret => ?_⟩
      have hd := inv.drained c hc hret
      rw [hw] at hd
      simp at hd
  | loopPendingClosed wl wr tm hw hp hg =>
      refine ⟨inv.eff_closed, inv.eff_unique, inv.chans_p, inv.chans_t,
        inv.cancel_done, inv.cancel_src, fun c hc hret => ?_⟩
      have hd := inv.drained c hc hret
      rw [hw] at hd
      simp at hd
  | callClose grace =>
      dsimp only
      refine ⟨?_, ?_, ?_, ?_, ?_, ?_, ?_⟩
      · intro c hc heff
        rcases List.mem_cons.mp hc with rfl | hin
        · simp [Closer.eff] at heff
        · exact inv.eff_closed c hin heff
      · rw [countP_cons_eq]
        have e1 : Closer.eff ⟨grace, .start⟩ = false := rfl
        rw [e1, if_false_bool]
        have := inv.eff_unique
        omega
      · intro c hc hst
        rcases List.mem_cons.mp hc with rfl | hin
        · rcases hst with h | h | h | h <;> cases h
        · exact inv.chans_p c hin hst
      · intro c hc hst
        rcases List.mem_cons.mp hc with rfl | hin
        · rcases hst with h | h | h <;> cases h
        · exact inv.chans_t c hin hst
      · intro c hc hg2 hst
        rcases List.mem_cons.mp hc with rfl | hin
        · rcases hst with h | h <;> cases h
        · exact inv.cancel_done c hin hg2 hst
      · intro hca
        obtain ⟨c, hm, hg2, he⟩ := inv.cancel_src hca
        exact ⟨c, List.mem_cons_of_mem _ hm, hg2, he⟩
      · intro c hc hret
        rcases List.mem_cons.mp hc with rfl | hin
        · cases hret
        · exact inv.drained c hin hret
  | closeAlreadyClosed cl cr g hc hcl =>
      dsimp only
      have h1 := inv.eff_closed
      have h2 := inv.eff_unique
      have h3 := inv.chans_p
      have h4 := inv.chans_t
      have h5 := inv.cancel_done
      have h7 := inv.drained
      rw [hc] at h1 h3 h4 h5 h7
      refine ⟨?_, ?_, ?_, ?_, ?_, ?_, ?_⟩
      · exact forall_mem_update h1 (fun heff => by simp [Closer.eff] at heff)
      · rw [hc, countP_split] at h2
        rw [countP_split]
        have e1 : Closer.eff ⟨g, .start⟩ = false := rfl
        have e2 : Closer.eff ⟨g, .returnedNoop⟩ = false := rfl
        rw [e1, if_false_bool] at h2
        rw [e2, if_false_bool]
        omega
      · exact forall_mem_update h3
          (fun hst => by rcases hst with h | h | h | h <;> cases h)
      · exact forall_mem_update h4
          (fun hst => by rcases hst with h | h | h <;> cases h)
      · exact forall_mem_update h5
          (fun _ hst => by rcases hst with h | h <;> cases h)
      · intro hca
        obtain ⟨c, hm, hg2, he⟩ := inv.cancel_src hca
        rw [hc] at hm
        rcases mem_split_cases hm with rfl | hin
        · simp [Closer.eff] at he
        · exact ⟨c, mem_split_intro _ hin, hg2, he⟩
      · exact forall_mem_update h7 (fun hret => by cases hret)
  | closeSetFlag cl cr g hc hcl =>
      dsimp only
      have h3 := inv.chans_p
      have h4 := inv.chans_t
      have h5 := inv.cancel_done
      have h7 := inv.drained
      rw [hc] at h3 h4 h5 h7
      refine ⟨fun _ _ _ => rfl, ?_, ?_, ?_, ?_, ?_, ?_⟩
      · have hz : s.closers.countP Closer.eff = 0 := by
          rw [List.countP_eq_zero]
          intro c hm hcE
          have := inv.eff_closed c hm hcE
          rw [this] at hcl
          cases hcl
        rw [hc, countP_split] at hz
        rw [countP_split]
        have e1 : Closer.eff ⟨g, .start⟩ = false := rfl
        have e2 : Closer.eff ⟨g, .won⟩ = true := rfl
        rw [e1, if_false_bool] at hz
        rw [e2]
        simp only [if_pos]
        omega
      · exact forall_mem_update h3
          (fun hst => by rcases hst with h | h | h | h <;> cases h)
      · exact forall_mem_update h4
          (fun hst => by rcases hst with h | h | h <;> cases h)
      · exact forall_mem_update h5
          (fun _ hst => by rcases hst with h | h <;> cases h)
      · intro hca
        obtain ⟨c, hm, hg2, he⟩ := inv.cancel_src hca
        rw [hc] at hm
        rcases mem_split_cases hm with rfl | hin
        · simp [Closer.eff] at he
        · exact ⟨c, mem_split_intro _ hin, hg2, he⟩
      · exact forall_mem_update h7 (fun hret => by cases hret)
  | closePendingChan cl cr g hc =>
      dsimp only
      have h1 := inv.eff_closed
      have h2 := inv.eff_unique
      have h4 := inv.chans_t
      have h5 := inv.cancel_done
      have h7 := inv.drained
      rw [hc] at h1 h4 h5 h7
      refine ⟨?_, ?_, fun _ _ _ => rfl, ?_, ?_, ?_, ?_⟩
      · exact forall_mem_update h1
          (fun _ => (forall_mem_split h1).1 rfl)
      · rw [hc, countP_split] at h2
        rw [countP_split]
        have e1 : Closer.eff ⟨g, .won⟩ = true := rfl
        have e2 : Closer.eff ⟨g, .chansP⟩ = true := rfl
        rw [e1] at h2
        rw [e2]
        simp only [if_pos] at h2 ⊢
        omega
      · exact forall_mem_update h4
          (fun hst => by rcases hst with h | h | h <;> cases h)
      · exact forall_mem_update h5
          (fun _ hst => by rcases hst with h | h <;> cases h)
      · intro hca
        obtain ⟨c, hm, hg2, he⟩ := inv.cancel_src hca
        rw [hc] at hm
        rcases mem_split_cases hm with rfl | hin
        · exact ⟨⟨g, .chansP⟩,
            List.mem_append.mpr (Or.inr (List.mem_cons_self _ _)), hg2, rfl⟩
        · exact ⟨c, mem_split_intro _ hin, hg2, he⟩
      · exact forall_mem_update h7 (fun hret => by cases hret)
  | closeTokensChan cl cr g hc =>
      dsimp only
      have h1 := inv.eff_closed
      have h2 := inv.eff_unique
      have h3 := inv.chans_p
      have h5 := inv.cancel_done
      have h7 := inv.drained
      rw [hc] at h1 h3 h5 h7
      refine ⟨?_, ?_, ?_, fun _ _ _ => rfl, ?_, ?_, ?_⟩
      · exact forall_mem_update h1
          (fun _ => (forall_mem_split h1).1 rfl)
      · rw [hc, countP_split] at h2
        rw [countP_split]
        have e1 : Closer.eff ⟨g, .chansP⟩ = true := rfl
        have e2 : Closer.eff ⟨g, .chansT⟩ = true := rfl
        rw [e1] at h2
        rw [e2]
        simp only [if_pos] at h2 ⊢
        omega
      · exact forall_mem_update h3
          (fun _ => (forall_mem_split h3).1 (Or.inl rfl))
      · exact forall_mem_update h5
          (fun _ hst => by rcases hst with h | h <;> cases h)
      · intro hca
        obtain ⟨c, hm, hg2, he⟩ := inv.cancel_src hca
        rw [hc] at hm
        rcases mem_split_cases hm with rfl | hin
        · exact ⟨⟨g, .chansT⟩,
            List.mem_append.mpr (Or.inr (List.mem_cons_self _ _)), hg2, rfl⟩
        · exact ⟨c, mem_split_intro _ hin, hg2, he⟩
      · exact forall_mem_update h7 (fun hret => by cases hret)
  | closeCancelCtx cl cr hc =>
      dsimp only
      have h1 := inv.eff_closed
      have h2 := inv.eff_unique
      have h3 := inv.chans_p
      have h4 := inv.chans_t
      have h7 := inv.drained
      rw [hc] at h1 h3 h4 h7
      refine ⟨?_, ?_, ?_, ?_, fun _ _ _ _ => rfl, ?_, ?_⟩
      · exact forall_mem_update h1
          (fun _ => (forall_mem_split h1).1 rfl)
      · rw [hc, countP_split] at h2
        rw [countP_split]
        have e1 : Closer.eff ⟨false, .chansT⟩ = true := rfl
        have e2 : Closer.eff ⟨false, .waiting⟩ = true := rfl
        rw [e1] at h2
        rw [e2]
        simp only [if_pos] at h2 ⊢
        omega
      · exact forall_mem_update h3
          (fun _ => (forall_mem_split h3).1 (Or.inr (Or.inl rfl)))
      · exact forall_mem_update h4
          (fun _ => (forall_mem_split h4).1 (Or.inl rfl))
      · intro _
        exact ⟨⟨false, .waiting⟩,
          List.mem_append.mpr (Or.inr (List.mem_cons_self _ _)), rfl, rfl⟩
      · exact forall_mem_update h7 (fun hret => by cases hret)
  | closeNoCancel cl cr hc =>
      dsimp only
      have h1 := inv.eff_closed
      have h2 := inv.eff_unique
      have h3 := inv.chans_p
      have h4 := inv.chans_t
      have h5 := inv.cancel_done
      have h7 := inv.drained
      rw [hc] at h1 h3 h4 h5 h7
      refine ⟨?_, ?_, ?_, ?_, ?_, ?_, ?_⟩
      · exact forall_mem_update h1
          (fun _ => (forall_mem_split h1).1 rfl)
      · rw [hc, countP_split] at h2
        rw [countP_split]
        have e1 : Closer.eff ⟨true, .chansT⟩ = true := rfl
        have e2 : Closer.eff ⟨true, .waiting⟩ = true := rfl
        rw [e1] at h2
        rw [e2]
        simp only [if_pos] at h2 ⊢
        omega
      · exact forall_mem_update h3
          (fun _ => (forall_mem_split h3).1 (Or.inr (Or.inl rfl)))
      · exact forall_mem_update h4
          (fun _ => (forall_mem_split h4).1 (Or.inl rfl))
      · exact forall_mem_update h5 (fun hg2 _ => by cases hg2)
      · intro hca
        obtain ⟨c, hm, hg2, he⟩ := inv.cancel_src hca
        rw [hc] at hm
        rcases mem_split_cases hm with rfl | hin
        · cases hg2
        · exact ⟨c, mem_split_intro _ hin, hg2, he⟩
      · exact forall_mem_update h7 (fun hret => by cases hret)
  | closeWaitDone cl cr g hc hw =>
      dsimp only
      have hempty : s.workers = [] := by
        have := inv.wait_eq
        rw [hw] at this
        exact List.length_eq_zero.mp this.symm
      have h1 := inv.eff_closed
      have h2 := inv.eff_unique
      have h3 := inv.chans_p
      have h4 := inv.chans_t
      have h5 := inv.cancel_done
      rw [hc] at h1 h3 h4 h5
      refine ⟨?_, ?_, ?_, ?_, ?_, ?_, fun _ _ _ => hempty⟩
      · exact forall_mem_update h1
          (fun _ => (forall_mem_split h1).1 rfl)
      · rw [hc, countP_split] at h2
        rw [countP_split]
        have e1 : Closer.eff ⟨g, .waiting⟩ = true := rfl
        have e2 : Closer.eff ⟨g, .returnedEff⟩ = true := rfl
        rw [e1] at h2
        rw [e2]
        simp only [if_pos] at h2 ⊢
        omega
      · exact forall_mem_update h3
          (fun _ => (forall_mem_split h3).1 (Or.inr (Or.inr (Or.inl rfl))))
      · exact forall_mem_update h4
          (fun _ => (forall_mem_split h4).1 (Or.inr (Or.inl rfl)))
      · exact forall_mem_update h5
          (fun hg2 _ => (forall_mem_split h5).1 hg2 (Or.inl rfl))
      · intro hca
        obtain ⟨c, hm, hg2, he⟩ := inv.cancel_src hca
        rw [hc] at hm
        rcases mem_split_cases hm with rfl | hin
        · exact ⟨⟨g, .returnedEff⟩,
            List.mem_append.mpr (Or.inr (List.mem_cons_self _ _)), hg2, rfl⟩
        · exact ⟨c, mem_split_intro _ hin, hg2, he⟩

/-- The full invariant is preserved by every step. -/
theorem inv_step {s s' : Pool} (inv : Inv s) (h : Step s s') : Inv s' := by
  obtain ⟨a1, a2, a3, a4⟩ := step_counters inv h
  obtain ⟨b1, b2, b3⟩ := step_flags inv h
  obtain ⟨c1, c2⟩ := step_ghost inv h
  obtain ⟨d1, d2, d3, d4, d5, d6, d7⟩ := step_closers inv h
  exact ⟨a1, a2, a3, a4, b1, b2, b3, c1, c2, d1, d2, d3, d4, d5, d6, d7⟩

/-- Every state reachable from a freshly constructed pool satisfies the
invariant. -/
theorem inv_of_reaches {opts : List PoolOpt} {s : Pool}
    (h : Reaches (NewPool opts) s) : Inv s := by
  induction h with
  | refl => exact inv_newPool opts
  | tail _ hstep ih => exact inv_step ih hstep

/-- A single step never changes the configuration fields. -/
theorem step_config {s s' : Pool} (h : Step s s') :
    s'.concurrent = s.concurrent ∧ s'.idleTimeout = s.idleTimeout ∧
    s'.hasRecover = s.hasRecover := by
  cases h <;> exact ⟨rfl, rfl, rfl⟩

/-- Reachability never changes the configuration fields. -/
theorem reaches_config {a s : Pool} (h : Reaches a s) :
    s.concurrent = a.concurrent ∧ s.idleTimeout = a.idleTimeout ∧
    s.hasRecover = a.hasRecover := by
  induction h with
  | refl => exact ⟨rfl, rfl, rfl⟩
  | tail _ hstep ih =>
      obtain ⟨x1, x2, x3⟩ := step_config hstep
      exact ⟨x1.trans ih.1, x2.trans ih.2.1, x3.trans ih.2.2⟩

/-! ## Reachability of the concrete runs -/

theorem reach_sA1 : Reaches (NewPool []) sA1 :=
  Relation.ReflTransGen.single (Step.callExecute sA0)

theorem reach_sA2 : Reaches (NewPool []) sA2 :=
  reach_sA1.tail (Step.execSpawn sA1 [] [] (some 0) rfl rfl (by decide))

theorem reach_sA3 : Reaches (NewPool []) sA3 :=
  reach_sA2.tail (Step.loopBodyReturns sA2 [] [] 0 (.armed 1000000000) rfl)

theorem reach_sA4 : Reaches (NewPool []) sA4 :=
  reach_sA3.tail (Step.timerFires sA3 [] [] .selecting 1000000000 rfl)

theorem reach_sB4 : Reaches (NewPool []) sB4 :=
  ((reach_sA1.tail (Step.callClose sA1 true)).tail
    (Step.closeSetFlag sB2 [] [] true rfl rfl)).tail
    (Step.closePendingChan sB3 [] [] true rfl)

theorem reach_sP2 : Reaches (NewPool [.withRecover]) sP2 :=
  (Relation.ReflTransGen.single (Step.callExecute sP0)).tail
    (Step.execSpawn sP1 [] [] (some 0) rfl rfl (by decide))

theorem reach_sP3 : Reaches (NewPool [.withRecover]) sP3 :=
  reach_sP2.tail
    (Step.loopBodyPanics sP2 [] [] 0 (.armed 1000000000) rfl
      (Or.inl (by decide)))

theorem reach_sC6 : Reaches (NewPool []) sC6 :=
  (((((Relation.ReflTransGen.single (Step.callClose sC0 true)).tail
    (Step.closeSetFlag sC1 [] [] true rfl rfl)).tail
    (Step.closePendingChan sC2 [] [] true rfl)).tail
    (Step.closeTokensChan sC3 [] [] true rfl)).tail
    (Step.closeNoCancel sC4 [] [] rfl)).tail
    (Step.closeWaitDone sC5 [] [] true rfl rfl)

theorem reach_sC7 : Reaches (NewPool []) sC7 :=
  reach_sC6.tail (Step.callClose sC6 false)

theorem reach_sD5 : Reaches (NewPool []) sD5 :=
  ((((Relation.ReflTransGen.single (Step.callClose sC0 false)).tail
    (Step.closeSetFlag sD1 [] [] false rfl rfl)).tail
    (Step.closePendingChan sD2 [] [] false rfl)).tail
    (Step.closeTokensChan sD3 [] [] false rfl)).tail
    (Step.closeCancelCtx sD4 [] [] rfl)

theorem reach_sN1 : Reaches (NewPool []) sN1 :=
  Relation.ReflTransGen.single (Step.callExecuteNil sC0)

/-! ## The claims -/

/-- Claim C1: in every state reachable from a pool constructed with
capacity `concurrent`, at most `concurrent` workers are alive and the
number of concurrently-running task bodies never exceeds `concurrent`;
moreover, until shutdown closes the tokens channel, the channel buffers
exactly one token per alive worker — a worker is spawned only after a send
into `tokens` succeeded and holds its token for its whole lifetime. -/
theorem execute_capacity_bound {opts : List PoolOpt} {s : Pool}
    (h : Reaches (NewPool opts) s) :
    s.workers.length ≤ s.concurrent ∧
    runningBodies s ≤ s.concurrent ∧
    (s.tokensClosed = false → s.tokens = s.workers.length) ∧
    s.concurrent = (NewPool opts).concurrent := by
  have inv := inv_of_reaches h
  refine ⟨inv.alive_le, ?_, inv.tokens_eq, (reaches_config h).1⟩
  calc runningBodies s ≤ s.workers.length := List.countP_le_length _
    _ ≤ s.concurrent := inv.alive_le

/-- Witness for C1 at a concrete reachable state with one running task. -/
theorem execute_capacity_bound_witness :
    sA2.workers.length ≤ sA2.concurrent ∧
    runningBodies sA2 ≤ sA2.concurrent ∧
    (sA2.tokensClosed = false → sA2.tokens = sA2.workers.length) ∧
    sA2.concurrent = (NewPool []).concurrent :=
  execute_capacity_bound reach_sA2

/-- Claim C2: a submitted task is never duplicated (its body starts at
most once), and in any reachable state in which the pool has not been
closed and the submitting `Execute` call has left its select, the task's
body has started exactly once — whether it was handed to an idle worker
over `pending` or became the first job of a freshly spawned worker. -/
theorem task_executed_exactly_once {opts : List PoolOpt} {s : Pool}
    (h : Reaches (NewPool opts) s) (t : Nat) :
    s.execs.count t ≤ 1 ∧
    (t < s.nextId → s.closed = false → holders s t = 0 →
      s.execs.count t = 1) := by
  have inv := inv_of_reaches h
  constructor
  · by_cases ht : t < s.nextId
    · have := inv.conserve t ht
      omega
    · have := (inv.fresh t (by omega)).1
      omega
  · intro h1 h2 h3
    have hd : s.drops.count t = 0 := by
      by_contra hne
      have hpos : 0 < s.drops.count t := Nat.pos_of_ne_zero hne
      rw [inv.drops_flag t hpos] at h2
      cases h2
    have := inv.conserve t h1
    omega

/-- Witness for C2: after one spawned execution, task 0 has been started
exactly once. -/
theorem task_executed_exactly_once_witness :
    sA2.execs.count 0 ≤ 1 ∧ sA2.execs.count 0 = 1 :=
  ⟨(task_executed_exactly_once reach_sA2 0).1,
   (task_executed_exactly_once reach_sA2 0).2 (by decide) rfl (by decide)⟩

/-- Claim C3 counterexample: a concrete run refuting "the worker does not
terminate: it continues to its WaitingForWork state".  A default pool with
a recover function spawns one worker for task 0, the task's body panics,
and afterwards NO worker exists at all (in particular none waiting for
work) — the deferred `doRecover` sits at the top of `loop`, so recovering
the panic still unwinds and terminates the worker goroutine, although the
handler was invoked with the payload and the pool survived. -/
theorem task_panic_worker_terminates_cx :
    Reaches (NewPool [PoolOpt.withRecover]) sP3 ∧
    sP3.recovers = [Payload.taskPanic 0] ∧
    sP3.workers = [] ∧ sP3.waitCount = 0 :=
  ⟨reach_sP3, rfl, rfl, rfl⟩

/-- Claim C3 (amended): when a task body panics, the panic is recovered by
the worker's deferred `doRecover` and is not propagated, and the
configured handler is invoked with the payload exactly when one is
configured (nothing happens otherwise) — but the worker terminates rather
than continuing to wait for work: its deferred statements release its one
token and decrement the live-worker counter.  Subsequent tasks run on
freshly spawned workers. -/
theorem task_panic_recovered_worker_exits {opts : List PoolOpt} {s : Pool}
    (h : Reaches (NewPool opts) s) :
    ∀ wl wr t tm,
      s.workers = wl ++ (⟨.running (some t), tm⟩ : Worker) :: wr →
      Step s { s with workers := wl ++ wr, tokens := s.tokens - 1,
                      waitCount := s.waitCount - 1,
                      recovers := doRecover s (Payload.taskPanic t) } ∧
      (s.hasRecover = true →
        doRecover s (Payload.taskPanic t) =
          Payload.taskPanic t :: s.recovers) ∧
      (s.hasRecover = false →
        doRecover s (Payload.taskPanic t) = s.recovers) ∧
      s.waitCount - 1 = (wl ++ wr).length ∧
      (s.tokensClosed = false → s.tokens - 1 = (wl ++ wr).length) := by
  have inv := inv_of_reaches h
  intro wl wr t tm hw
  have hlen : s.workers.length = (wl ++ wr).length + 1 := by
    rw [hw, length_split]; simp
  have hg : 0 < s.tokens ∨ s.tokensClosed = true := by
    cases htc : s.tokensClosed with
    | true => exact Or.inr rfl
    | false =>
        refine Or.inl ?_
        have := inv.tokens_eq htc
        omega
  refine ⟨Step.loopBodyPanics s wl wr t tm hw hg, ?_, ?_, ?_, ?_⟩
  · intro hr; simp [doRecover, hr]
  · intro hr; simp [doRecover, hr]
  · have := inv.wait_eq; omega
  · intro htc; have := inv.tokens_eq htc; omega

/-- Witness for the amended C3 at the concrete panicking run. -/
theorem task_panic_recovered_worker_exits_witness :
    Step sP2 { sP2 with workers := [], tokens := sP2.tokens - 1,
                        waitCount := sP2.waitCount - 1,
                        recovers := doRecover sP2 (Payload.taskPanic 0) } ∧
    doRecover sP2 (Payload.taskPanic 0) =
      Payload.taskPanic 0 :: sP2.recovers ∧
    sP2.waitCount - 1 = 0 ∧ sP2.tokens - 1 = 0 := by
  obtain ⟨h1, h2, h3, h4, h5⟩ :=
    task_panic_recovered_worker_exits reach_sP2 [] [] 0
      (.armed 1000000000) rfl
  exact ⟨h1, h2 rfl, h4, h5 rfl⟩

/-- Claim C4: whenever a `Close` call that performed the shutdown sequence
has returned (which requires `wait.Wait()` to have observed the
live-worker counter at zero), no worker is alive any more — in particular
no task body is still running, so every task that was running when
`Close(true)` was invoked has completed before `Close` returned. -/
theorem close_waits_for_all_workers {opts : List PoolOpt} {s : Pool}
    (h : Reaches (NewPool opts) s) :
    ∀ c ∈ s.closers, c.status = .returnedEff →
      s.workers = [] ∧ s.waitCount = 0 ∧ runningBodies s = 0 := by
  have inv := inv_of_reaches h
  intro c hc hret
  have he := inv.drained c hc hret
  refine ⟨he, ?_, ?_⟩
  · rw [inv.wait_eq, he]; rfl
  · simp only [runningBodies]
    rw [he]
    rfl

/-- Witness for C4 after a completed graceful close. -/
theorem close_waits_for_all_workers_witness :
    sC6.workers = [] ∧ sC6.waitCount = 0 ∧ runningBodies sC6 = 0 :=
  close_waits_for_all_workers reach_sC6 ⟨true, .returnedEff⟩ (by decide) rfl

/-- Claim C5: an effective `Close(false)` cancels the shared context
before it can return (any non-graceful closer at or past `wait.Wait()`
has set the cancellation flag), while if only `Close(true)` calls were
ever made, the pool has not cancelled the shared context. -/
theorem close_cancellation {opts : List PoolOpt} {s : Pool}
    (h : Reaches (NewPool opts) s) :
    (∀ c ∈ s.closers, c.grace = false →
      (c.status = .waiting ∨ c.status = .returnedEff) →
      s.cancelled = true) ∧
    ((∀ c ∈ s.closers, c.grace = true) → s.cancelled = false) := by
  have inv := inv_of_reaches h
  refine ⟨inv.cancel_done, ?_⟩
  intro hall
  cases hcv : s.cancelled with
  | false => rfl
  | true =>
      obtain ⟨c, hm, hg, _⟩ := inv.cancel_src hcv
      rw [hall c hm] at hg
      cases hg

/-- Witness for C5: a non-graceful close has cancelled the context; a
purely graceful close has not. -/
theorem close_cancellation_witness :
    sD5.cancelled = true ∧ sC6.cancelled = false :=
  ⟨(close_cancellation reach_sD5).1 ⟨false, .waiting⟩ (by decide) rfl
      (Or.inl rfl),
   (close_cancellation reach_sC6).2 (by decide)⟩

/-- Claim C6: `Close` is idempotent — at most one `Close` call ever
passes the mutex-guarded `closed` check and performs the shutdown
sequence, and a `Close` call that observes `closed = true` returns
immediately as a no-op: the step it takes changes nothing but its own
program counter (no channel is closed again, no context cancelled, no
panic). -/
theorem close_idempotent {opts : List PoolOpt} {s : Pool}
    (h : Reaches (NewPool opts) s) :
    s.closers.countP Closer.eff ≤ 1 ∧
    (∀ cl cr g, s.closers = cl ++ (⟨g, .start⟩ : Closer) :: cr →
      s.closed = true →
      Step s { s with closers := cl ++ ⟨g, .returnedNoop⟩ :: cr }) := by
  have inv := inv_of_reaches h
  exact ⟨inv.eff_unique,
    fun cl cr g hc hcl => Step.closeAlreadyClosed s cl cr g hc hcl⟩

/-- Witness for C6: a second `Close(false)` after a completed graceful
close no-ops. -/
theorem close_idempotent_witness :
    sC7.closers.countP Closer.eff ≤ 1 ∧ Step sC7 sC8 :=
  ⟨(close_idempotent reach_sC7).1,
   (close_idempotent reach_sC7).2 [] [⟨true, .returnedEff⟩] false rfl rfl⟩

/-- Claim C7: a worker waiting for work whose idle timer has fired exits
its loop, releasing its admission token back to the bucket and
decrementing the live-worker counter (the deferred receive on `tokens`
cannot block: a token is always available or the channel is closed); if
instead a task arrives over `pending` first, the timer is stopped,
drained, and reset to `idleTimeout`, and the worker runs the task. -/
theorem worker_idle_timeout {opts : List PoolOpt} {s : Pool}
    (h : Reaches (NewPool opts) s) :
    (∀ wl wr, s.workers = wl ++ (⟨.selecting, .fired⟩ : Worker) :: wr →
      Step s { s with workers := wl ++ wr, tokens := s.tokens - 1,
                      waitCount := s.waitCount - 1 } ∧
      s.waitCount - 1 = (wl ++ wr).length ∧
      (s.tokensClosed = false → s.tokens - 1 = (wl ++ wr).length)) ∧
    (∀ wl wr tm sl sr t,
      s.workers = wl ++ (⟨.selecting, tm⟩ : Worker) :: wr →
      s.subs = sl ++ (⟨some t, .atSelect⟩ : Submitter) :: sr →
      s.pendingClosed = false →
      Step s { s with subs := sl ++ ⟨some t, .returned⟩ :: sr,
                      workers :=
                        wl ++ ⟨.running (some t), .armed s.idleTimeout⟩ :: wr,
                      execs := t :: s.execs }) := by
  have inv := inv_of_reaches h
  constructor
  · intro wl wr hw
    have hlen : s.workers.length = (wl ++ wr).length + 1 := by
      rw [hw, length_split]; simp
    have hg : 0 < s.tokens ∨ s.tokensClosed = true := by
      cases htc : s.tokensClosed with
      | true => exact Or.inr rfl
      | false =>
          refine Or.inl ?_
          have := inv.tokens_eq htc
          omega
    refine ⟨Step.loopIdleExit s wl wr hw hg, ?_, ?_⟩
    · have := inv.wait_eq; omega
    · intro htc; have := inv.tokens_eq htc; omega
  · intro wl wr tm sl sr t hw hs hp
    exact Step.execHandoff s sl sr wl wr t tm hs hw hp

/-- Witness for C7: the idle worker of the concrete run exits when its
timer has fired. -/
theorem worker_idle_timeout_witness :
    Step sA4 { sA4 with workers := [], tokens := sA4.tokens - 1,
                        waitCount := sA4.waitCount - 1 } ∧
    sA4.waitCount - 1 = 0 ∧ sA4.tokens - 1 = 0 := by
  obtain ⟨h1, h2, h3⟩ := (worker_idle_timeout reach_sA4).1 [] [] rfl
  exact ⟨h1, h2, h3 rfl⟩

/-- Claim C8: when `Execute`'s select hits a closed channel (submission
after/concurrent with `Close`), the resulting send-on-closed-channel panic
is recovered by the deferred `doRecover` guarding `Execute` itself: the
`Execute` call still returns to its caller (never propagates the panic),
the handler is invoked with the payload when configured, and with no
handler configured the panic is swallowed silently (the recover log is
unchanged). -/
theorem execute_swallows_submission_panic (s : Pool)
    (sl sr : List Submitter) (f : Option Nat)
    (hs : s.subs = sl ++ (⟨f, .atSelect⟩ : Submitter) :: sr)
    (hcl : s.pendingClosed = true ∨ s.tokensClosed = true) :
    Step s { s with subs := sl ++ ⟨f, .returned⟩ :: sr,
                    drops := match f with
                             | some t => t :: s.drops
                             | none => s.drops,
                    recovers := doRecover s Payload.sendOnClosedChannel } ∧
    (s.hasRecover = false →
      doRecover s Payload.sendOnClosedChannel = s.recovers) ∧
    (s.hasRecover = true →
      doRecover s Payload.sendOnClosedChannel =
        Payload.sendOnClosedChannel :: s.recovers) := by
  refine ⟨Step.execSendClosed s sl sr f hs hcl, ?_, ?_⟩
  · intro hr; simp [doRecover, hr]
  · intro hr; simp [doRecover, hr]

/-- Witness for C8: an `Execute` blocked at its select when the pending
channel is closed returns (dropping its task) without propagating; with
no handler configured the recover log is unchanged. -/
theorem execute_swallows_submission_panic_witness :
    Step sB4 { sB4 with subs := [⟨some 0, .returned⟩], drops := [0],
                        recovers := doRecover sB4 Payload.sendOnClosedChannel } ∧
    doRecover sB4 Payload.sendOnClosedChannel = sB4.recovers := by
  obtain ⟨h1, h2, _⟩ :=
    execute_swallows_submission_panic sB4 [] [] (some 0) rfl (Or.inl rfl)
  exact ⟨h1, h2 rfl⟩

/-- Claim C9: worker-exit accounting never leaks: in every reachable
state the wait-group counter equals the number of live workers (every
exit path ran `wait.Done()` exactly once, so `Close` cannot deadlock on a
worker that died from a task panic), until shutdown the tokens channel
buffers exactly one token per live worker (every exit path released
exactly one token), the buffered tokens never exceed the capacity, and
whenever any worker is alive its deferred `<-g.tokens` can complete at
once (a token is buffered, or the channel is closed). -/
theorem worker_exit_accounting {opts : List PoolOpt} {s : Pool}
    (h : Reaches (NewPool opts) s) :
    s.waitCount = s.workers.length ∧
    (s.tokensClosed = false → s.tokens = s.workers.length) ∧
    s.tokens ≤ s.concurrent ∧
    (∀ wl w wr, s.workers = wl ++ w :: wr →
      0 < s.tokens ∨ s.tokensClosed = true) := by
  have inv := inv_of_reaches h
  refine ⟨inv.wait_eq, inv.tokens_eq, inv.tokens_le, ?_⟩
  intro wl w wr hw
  cases htc : s.tokensClosed with
  | true => exact Or.inr rfl
  | false =>
      refine Or.inl ?_
      have := inv.tokens_eq htc
      rw [hw, length_split] at this
      omega

/-- Witness for C9 at a concrete reachable state with one live worker. -/
theorem worker_exit_accounting_witness :
    sA2.waitCount = sA2.workers.length ∧
    sA2.tokens = sA2.workers.length ∧
    sA2.tokens ≤ sA2.concurrent ∧
    (0 < sA2.tokens ∨ sA2.tokensClosed = true) := by
  obtain ⟨h1, h2, h3, h4⟩ := worker_exit_accounting reach_sA2
  exact ⟨h1, h2 rfl, h3,
    h4 [] ⟨.running (some 0), .armed 1000000000⟩ [] rfl⟩

/-- Claim C10: a nil task is never executed as a body.  If `Execute(nil)`
hands `nil` to an idle worker, the worker takes the `if f == nil` branch
and silently terminates, releasing its token — the record of started
bodies (`execs`) is unchanged.  If instead `Execute(nil)` spawns a fresh
worker, no body is recorded either, and the spawned worker's invocation of
the nil function panics, after which the worker exits with its token
released and still no body recorded. -/
theorem execute_nil_never_runs_body {opts : List PoolOpt} {s : Pool}
    (h : Reaches (NewPool opts) s) :
    (∀ sl sr wl wr tm,
      s.subs = sl ++ (⟨none, .atSelect⟩ : Submitter) :: sr →
      s.workers = wl ++ (⟨.selecting, tm⟩ : Worker) :: wr →
      s.pendingClosed = false →
      Step s { s with subs := sl ++ ⟨none, .returned⟩ :: sr,
                      workers := wl ++ wr, tokens := s.tokens - 1,
                      waitCount := s.waitCount - 1 }) ∧
    (∀ sl sr, s.subs = sl ++ (⟨none, .atSelect⟩ : Submitter) :: sr →
      s.tokensClosed = false → s.tokens < s.concurrent →
      Step s { s with subs := sl ++ ⟨none, .returned⟩ :: sr,
                      tokens := s.tokens + 1, waitCount := s.waitCount + 1,
                      workers :=
                        ⟨.running none, .armed s.idleTimeout⟩ :: s.workers,
                      execs := s.execs }) ∧
    (∀ wl wr tm, s.workers = wl ++ (⟨.running none, tm⟩ : Worker) :: wr →
      Step s { s with workers := wl ++ wr, tokens := s.tokens - 1,
                      waitCount := s.waitCount - 1,
                      recovers := doRecover s Payload.nilFunctionCall }) := by
  have inv := inv_of_reaches h
  refine ⟨?_, ?_, ?_⟩
  · intro sl sr wl wr tm hs hw hp
    have hg : 0 < s.tokens ∨ s.tokensClosed = true := by
      cases htc : s.tokensClosed with
      | true => exact Or.inr rfl
      | false =>
          refine Or.inl ?_
          have := inv.tokens_eq htc
          rw [hw, length_split] at this
          omega
    exact Step.execHandoffNil s sl sr wl wr tm hs hw hp hg
  · intro sl sr hs ht hc
    exact Step.execSpawn s sl sr none hs ht hc
  · intro wl wr tm hw
    have hg : 0 < s.tokens ∨ s.tokensClosed = true := by
      cases htc : s.tokensClosed with
      | true => exact Or.inr rfl
      | false =>
          refine Or.inl ?_
          have := inv.tokens_eq htc
          rw [hw, length_split] at this
          omega
    exact Step.loopNilCallPanics s wl wr tm hw hg

/-- Witness for C10: `Execute(nil)` on a fresh pool spawns a worker with a
nil first job and records no started body. -/
theorem execute_nil_never_runs_body_witness : Step sN1 sN2 :=
  (execute_nil_never_runs_body reach_sN1).2.1 [] [] rfl rfl (by decide)

end GoPool
